import Mathlib

/-!
Shallow embedding of the core of a cross-sectional momentum backtesting
system: market-data adapter slicing, the fractional-share portfolio,
the hysteresis rebalancer, the engine's per-date rebalance step, the
robustness scorer of the parameter optimizer, the percentile rank bucket
of the RS calculators, the sustained-signal detector of the factor study,
and the QoQ/CAGR passes of the derived-metric pipeline.

Python floats are embedded as rationals.  Symbols are opaque textual
identifiers that the source only compares for equality and sorts by name;
ISO-8601 dates (strings of fixed length) compare lexicographically exactly
in chronological order.  Both are embedded as naturals carrying the same
total order.
-/

abbrev Ticker := Nat

/-- One bar of a per-symbol price series (the `date` and `close` columns). -/
structure PriceRow where
  date : Nat
  close : ℚ
deriving DecidableEq

/-- Embedding of `USStocksAdapter.slice_to_date`
(src/backtest/adapters/us_stocks.py lines 89-111): every cached series is
truncated to the rows with date ≤ d, and only series with at least 70
remaining rows are returned. -/
def sliceToDate (cache : List (Ticker × List PriceRow)) (d : Nat) :
    List (Ticker × List PriceRow) :=
  cache.filterMap (fun p =>
    let cut := p.2.filter (fun r => r.date ≤ d)
    if 70 ≤ cut.length then some (p.1, cut) else none)

inductive Side where
  | BUY
  | SELL
deriving DecidableEq

/-- A trade record (src/backtest/portfolio.py, `Trade`). -/
structure Trade where
  date : Nat
  symbol : Ticker
  side : Side
  shares : ℚ
  price : ℚ
  cost : ℚ
  notional : ℚ
deriving DecidableEq

/-- The mutable portfolio state (src/backtest/portfolio.py,
`PortfolioState`): cash, the single-sided cost rate, the holdings dict and
the trade log.  Snapshots are not referenced by the verified claims. -/
structure PortfolioState where
  cash : ℚ
  costRate : ℚ
  holdings : List (Ticker × ℚ)
  trades : List Trade
deriving DecidableEq

/-- Python `holdings.get(symbol, 0.0)`. -/
def getShares (h : List (Ticker × ℚ)) (sym : Ticker) : ℚ :=
  (List.lookup sym h).getD 0

/-- Python `holdings[symbol] = v`: update in place when the key exists,
append otherwise (dict insertion order). -/
def setShares (h : List (Ticker × ℚ)) (sym : Ticker) (v : ℚ) :
    List (Ticker × ℚ) :=
  if h.any (fun p => p.1 = sym) then
    h.map (fun p => if p.1 = sym then (sym, v) else p)
  else h ++ [(sym, v)]

/-- Python `del holdings[symbol]`. -/
def delSymbol (h : List (Ticker × ℚ)) (sym : Ticker) : List (Ticker × ℚ) :=
  h.filter (fun p => ¬p.1 = sym)

/-- The share-count eviction threshold `1e-10`. -/
def epsShares : ℚ := 1 / 10000000000

/-- Embedding of `PortfolioState.buy` (src/backtest/portfolio.py lines
55-98).  Returns the new state together with the shares acquired. -/
def PortfolioState.buy (p : PortfolioState) (sym : Ticker)
    (notional price : ℚ) (date : Nat) : PortfolioState × ℚ :=
  if price ≤ 0 ∨ notional ≤ 0 then (p, 0)
  else
    let cost := notional * p.costRate
    let netAmount := notional - cost
    let shares := netAmount / price
    if p.cash < netAmount then
      let available := p.cash - p.cash * p.costRate / (1 + p.costRate)
      if available ≤ 0 then (p, 0)
      else
        let cost2 := p.cash - available
        let shares2 := available / price
        let tr : Trade := ⟨date, sym, Side.BUY, shares2, price, cost2, p.cash⟩
        ({ p with
            cash := p.cash - (available + cost2)
            holdings := setShares p.holdings sym (getShares p.holdings sym + shares2)
            trades := p.trades ++ [tr] }, shares2)
    else
      let tr : Trade := ⟨date, sym, Side.BUY, shares, price, cost, notional⟩
      ({ p with
          cash := p.cash - (netAmount + cost)
          holdings := setShares p.holdings sym (getShares p.holdings sym + shares)
          trades := p.trades ++ [tr] }, shares)

/-- Embedding of `PortfolioState.sell` (src/backtest/portfolio.py lines
100-142).  Returns the new state together with the net cash received. -/
def PortfolioState.sell (p : PortfolioState) (sym : Ticker)
    (shares price : ℚ) (date : Nat) : PortfolioState × ℚ :=
  if price ≤ 0 ∨ shares ≤ 0 then (p, 0)
  else
    let current := getShares p.holdings sym
    if current ≤ 0 then (p, 0)
    else
      let actualShares := min shares current
      let gross := actualShares * price
      let cost := gross * p.costRate
      let net := gross - cost
      let afterSet := setShares p.holdings sym (current - actualShares)
      let newHoldings :=
        if current - actualShares < epsShares then delSymbol afterSet sym
        else afterSet
      let tr : Trade := ⟨date, sym, Side.SELL, actualShares, price, cost, gross⟩
      ({ p with
          cash := p.cash + net
          holdings := newHoldings
          trades := p.trades ++ [tr] }, net)

/-- Embedding of `PortfolioState.sell_all` (portfolio.py lines 144-149). -/
def PortfolioState.sellAll (p : PortfolioState) (sym : Ticker) (price : ℚ)
    (date : Nat) : PortfolioState × ℚ :=
  let shares := getShares p.holdings sym
  if shares ≤ 0 then (p, 0) else p.sell sym shares price date

/-- Embedding of `PortfolioState.compute_nav` (portfolio.py lines 153-167):
cash plus market value, with `prices.get(sym, 0.0)` for missing symbols. -/
def PortfolioState.computeNav (p : PortfolioState)
    (prices : List (Ticker × ℚ)) : ℚ :=
  p.cash + (p.holdings.map (fun q => q.2 * (List.lookup q.1 prices).getD 0)).sum

/-- The action list produced by one rebalance decision
(src/backtest/rebalancer.py, `RebalanceAction`). -/
structure RebalanceAction where
  to_sell : List Ticker
  to_buy : List Ticker
  to_hold : List Ticker
  target_count : Nat
deriving DecidableEq

/-- Python `sorted` on symbol names. -/
def pySorted (l : List Ticker) : List Ticker :=
  List.insertionSort (fun a b => a ≤ b) l

/-- Ranking rows sorted by `rs_rank` descending
(rs_df sorted by rs_rank descending). -/
def sortByRankDesc (rs : List (Ticker × ℚ)) : List (Ticker × ℚ) :=
  List.insertionSort (fun a b => a.2 ≥ b.2) rs

/-- The symbol column of the sorted ranking (`all_symbols`). -/
def rankedSymbols (rs : List (Ticker × ℚ)) : List Ticker :=
  (sortByRankDesc rs).map Prod.fst

/-- The hysteresis safe zone: the first `min(top_n + sell_buffer, count)`
symbols of the ranking in descending rank order. -/
def safeZone (top_n sell_buffer : Nat) (rs : List (Ticker × ℚ)) : List Ticker :=
  (rankedSymbols rs).take (min (top_n + sell_buffer) (rankedSymbols rs).length)

/-- The `to_buy` selection loop of `Rebalancer.compute` (rebalancer.py lines
94-100): scan the Top-N symbols in rank order, skip symbols kept or being
sold, stop once `slots` symbols have been picked. -/
def pickBuys : List Ticker → List Ticker → List Ticker → Nat → List Ticker
  | _, _, _, 0 => []
  | [], _, _, _ + 1 => []
  | s :: rest, remaining, toSell, k + 1 =>
    if s ∈ remaining ∨ s ∈ toSell then pickBuys rest remaining toSell (k + 1)
    else s :: pickBuys rest remaining toSell k

/-- Embedding of `Rebalancer.compute` (src/backtest/rebalancer.py lines
39-109).  `rs` is the ranking table as (symbol, rs_rank) rows and `H` the
current holding set. -/
def Rebalancer.compute (top_n sell_buffer : Nat) (rs : List (Ticker × ℚ))
    (H : List Ticker) : RebalanceAction :=
  if rs.isEmpty then ⟨pySorted H, [], [], 0⟩
  else
    let all_symbols := rankedSymbols rs
    let safe_zone := safeZone top_n sell_buffer rs
    let to_sell := H.filter (fun sym => sym ∉ all_symbols ∨ sym ∉ safe_zone)
    let remaining := H.filter (fun sym => sym ∉ to_sell)
    let slots_available : ℤ := (top_n : ℤ) - remaining.length
    let to_buy :=
      if 0 < slots_available then
        pickBuys (all_symbols.take top_n) remaining to_sell slots_available.toNat
      else []
    let to_hold := pySorted remaining
    ⟨pySorted to_sell, to_buy, to_hold, to_hold.length + to_buy.length⟩

/-- Python dict insertion: first-occurrence key position, last value wins. -/
def dictInsert (d : List (Ticker × ℚ)) (k : Ticker) (v : ℚ) :
    List (Ticker × ℚ) :=
  if d.any (fun p => p.1 = k) then
    d.map (fun p => if p.1 = k then (k, v) else p)
  else d ++ [(k, v)]

/-- Build a Python dict from an association list. -/
def dictOf (l : List (Ticker × ℚ)) : List (Ticker × ℚ) :=
  l.foldl (fun d p => dictInsert d p.1 p.2) []

/-- Embedding of `Rebalancer.compute_weights` (src/backtest/rebalancer.py
lines 111-144): equal weights, or rs_rank weights `max(rank, 1)`
normalized, with the degraded-to-equal branch on a non-positive total. -/
def Rebalancer.computeWeights (action : RebalanceAction)
    (rs : List (Ticker × ℚ)) (weighting : String) : List (Ticker × ℚ) :=
  let target := action.to_hold ++ action.to_buy
  if target.isEmpty then []
  else if weighting = "equal" then
    dictOf (target.map (fun sym => (sym, 1 / (target.length : ℚ))))
  else
    let raw := dictOf (target.map (fun sym =>
      (sym, max ((List.lookup sym (dictOf rs)).getD 0) 1)))
    let total := (raw.map Prod.snd).sum
    if total ≤ 0 then
      dictOf (target.map (fun sym => (sym, 1 / (target.length : ℚ))))
    else raw.map (fun p => (p.1, p.2 / total))

/-- The sell half of `BacktestEngine._rebalance` (src/backtest/engine.py
lines 171-178), threading the portfolio with the cumulative turnover. -/
def sellStep (prices : List (Ticker × ℚ)) (date : Nat)
    (st : PortfolioState × ℚ) (sym : Ticker) : PortfolioState × ℚ :=
  match List.lookup sym prices with
  | none => st
  | some price =>
    if 0 < price then
      let shares := getShares st.1.holdings sym
      if 0 < shares then ((st.1.sellAll sym price date).1, st.2 + shares * price)
      else st
    else st

/-- The buy half of `BacktestEngine._rebalance` (src/backtest/engine.py
lines 184-194): only symbols of `to_buy` are visited. -/
def buyStep (prices weights : List (Ticker × ℚ)) (nav : ℚ) (date : Nat)
    (st : PortfolioState × ℚ) (sym : Ticker) : PortfolioState × ℚ :=
  match List.lookup sym prices with
  | none => st
  | some price =>
    if 0 < price ∧ (List.lookup sym weights).isSome then
      let target := nav * (List.lookup sym weights).getD 0
      let current := getShares st.1.holdings sym * price
      let amount := target - current
      if 0 < amount then ((st.1.buy sym amount price date).1, st.2 + amount)
      else st
    else st

/-- Embedding of one `BacktestEngine._rebalance` call (src/backtest/engine.py
lines 147-194) after the ranking `rs` has been computed from the sliced
data: compute the action and weights, execute all sells, recompute NAV,
then execute the buys.  Returns the portfolio and cumulative turnover. -/
def BacktestEngine.rebalance (top_n sell_buffer : Nat) (weighting : String)
    (rs : List (Ticker × ℚ)) (prices : List (Ticker × ℚ)) (date : Nat)
    (port : PortfolioState) (turnover : ℚ) : PortfolioState × ℚ :=
  if rs.isEmpty then (port, turnover)
  else
    let H := port.holdings.map Prod.fst
    let action := Rebalancer.compute top_n sell_buffer rs H
    let weights := Rebalancer.computeWeights action rs weighting
    let st1 := action.to_sell.foldl (sellStep prices date) (port, turnover)
    let nav := st1.1.computeNav prices
    action.to_buy.foldl (buyStep prices weights nav date) st1

/-- One row of a parameter-sweep result table, restricted to the four
parameter dimensions and the chosen metric column. -/
structure SweepRow where
  rs_method : String
  top_n : ℤ
  rebalance_freq : String
  sell_buffer : ℤ
  metric : ℚ
deriving DecidableEq

def usStocksMarket : String := "us_stocks"

def cryptoMarket : String := "crypto"

/-- Ordered values of `top_n` in `_NEIGHBOR_MAP` (optimizer.py line 56). -/
def topNOrder : List ℤ := [5, 10, 15, 20]

/-- Ordered values of `rs_method` in `_NEIGHBOR_MAP` (optimizer.py line 65). -/
def rsMethodOrder : List String := ["B", "C"]

/-- Ordered values of `rebalance_freq` per market (optimizer.py lines 57-60). -/
def freqOrder (market : String) : List String :=
  if market = usStocksMarket then ["W", "2W", "M"]
  else if market = cryptoMarket then ["D", "3D", "W"] else []

/-- Ordered values of `sell_buffer` per market (optimizer.py lines 61-64). -/
def bufferOrder (market : String) : List ℤ :=
  if market = usStocksMarket then [0, 5, 10]
  else if market = cryptoMarket then [0, 3, 5] else []

/-- Embedding of `ParamOptimizer._get_adjacent_values` (optimizer.py lines
156-178): the one-ordinal-step neighbors of `v` in the ordered list. -/
def adjacentIn {α : Type} [DecidableEq α] (ordered : List α) (v : α) :
    List α :=
  match ordered.findIdx? (fun x => x = v) with
  | none => []
  | some i =>
    (if 0 < i then (ordered.get? (i - 1)).toList else []) ++
      (ordered.get? (i + 1)).toList

/-- Embedding of `ParamOptimizer._find_neighbor_values` (optimizer.py lines
124-154): for each parameter column in order, for each adjacent value, the
metric of the first row of `full` matching the row on the other three
columns and the adjacent value on this one. -/
def neighborVals (market : String) (row : SweepRow) (full : List SweepRow) :
    List ℚ :=
  ((adjacentIn rsMethodOrder row.rs_method).filterMap (fun adj =>
      ((full.filter (fun c => c.rs_method = adj ∧ c.top_n = row.top_n ∧
          c.rebalance_freq = row.rebalance_freq ∧
          c.sell_buffer = row.sell_buffer)).head?).map (fun c => c.metric))) ++
    ((adjacentIn topNOrder row.top_n).filterMap (fun adj =>
      ((full.filter (fun c => c.rs_method = row.rs_method ∧ c.top_n = adj ∧
          c.rebalance_freq = row.rebalance_freq ∧
          c.sell_buffer = row.sell_buffer)).head?).map (fun c => c.metric))) ++
    ((adjacentIn (freqOrder market) row.rebalance_freq).filterMap (fun adj =>
      ((full.filter (fun c => c.rs_method = row.rs_method ∧ c.top_n = row.top_n ∧
          c.rebalance_freq = adj ∧
          c.sell_buffer = row.sell_buffer)).head?).map (fun c => c.metric))) ++
    ((adjacentIn (bufferOrder market) row.sell_buffer).filterMap (fun adj =>
      ((full.filter (fun c => c.rs_method = row.rs_method ∧ c.top_n = row.top_n ∧
          c.rebalance_freq = row.rebalance_freq ∧
          c.sell_buffer = adj)).head?).map (fun c => c.metric)))

/-- The robustness score of one candidate (optimizer.py lines 99-112):
harmonic mean of candidate and mean neighbor metric when both are positive,
0.0 when neighbors exist but either is non-positive, and the candidate's
own value when there are no neighbors. -/
def robustnessScore (candidateVal : ℚ) (nvals : List ℚ) : ℚ :=
  if nvals.isEmpty then candidateVal
  else
    let neighborAvg := nvals.sum / (nvals.length : ℚ)
    if 0 < candidateVal ∧ 0 < neighborAvg then
      2 * candidateVal * neighborAvg / (candidateVal + neighborAvg)
    else 0

/-- The sweep table sorted by the metric descending (optimizer.py line 94). -/
def sortedByMetric (table : List SweepRow) : List SweepRow :=
  List.insertionSort (fun a b : SweepRow => a.metric ≥ b.metric) table

/-- Embedding of `ParamOptimizer.rank_with_robustness` (optimizer.py lines
78-122): take the top K rows by metric, attach each row's robustness score,
and re-rank by robustness descending. -/
def ParamOptimizer.rankWithRobustness (market : String)
    (table : List SweepRow) (top_k : Nat) : List (SweepRow × ℚ) :=
  let sorted := sortedByMetric table
  let top := sorted.take top_k
  let scored := top.map (fun r =>
    (r, robustnessScore r.metric (neighborVals market r sorted)))
  List.insertionSort (fun a b : SweepRow × ℚ => a.2 ≥ b.2) scored

/-- Embedding of scipy rankdata with the average tie method, evaluated at
value `v` within list `l` (1-based ordinal rank, ties averaged). -/
def avgRank (l : List ℚ) (v : ℚ) : ℚ :=
  ((l.filter (fun x => x < v)).length : ℚ) +
    (((l.filter (fun x => x = v)).length : ℚ) + 1) / 2

/-- Mathematical floor of a rational (`np.floor`), computed as floor
division of the numerator by the positive denominator. -/
def ratFloor (q : ℚ) : ℤ := q.num.fdiv q.den

/-- Embedding of the rank-bucket assignment shared verbatim by
`compute_crypto_rs_b` (crypto_rs.py lines 106-117) and
`compute_crypto_rs_c` (crypto_rs.py lines 190-201): a universe of at most
one scored symbol gets rank 50, otherwise each symbol gets
`clip(floor(avgRank / count * 100), 0, 99)`. -/
def rsRankColumn (composite : List ℚ) : List ℤ :=
  if composite.length ≤ 1 then composite.map (fun _ => 50)
  else composite.map (fun v =>
    min 99 (max 0 (ratFloor (avgRank composite v / (composite.length : ℚ) * 100))))

/-- The SUSTAINED branch of `_detect_for_symbol`
(src/backtest/factor_study/signals.py lines 92-111): the running loop with
the consecutive counter and the triggered flag. -/
def sustainedAux (th : ℚ) (n : Nat) :
    List (Nat × ℚ) → Nat → Bool → List Nat
  | [], _, _ => []
  | (date, score) :: rest, consecutive, triggered =>
    if th < score then
      let c := consecutive + 1
      if n ≤ c ∧ triggered = false then date :: sustainedAux th n rest c true
      else sustainedAux th n rest c triggered
    else sustainedAux th n rest 0 false

/-- Embedding of `_detect_for_symbol` for the SUSTAINED signal type
(signals.py lines 92-112), including the `n < 1` early return. -/
def detectSustained (history : List (Nat × ℚ)) (th : ℚ) (n : Nat) :
    List Nat :=
  if n < 1 then [] else sustainedAux th n history 0 false

/-- Streak lengths: for each observation, the number of consecutive
observations ending at it (inclusive) whose score strictly exceeds the
threshold, with `c` consecutive qualifying observations already seen. -/
def streakLens (th : ℚ) : List (Nat × ℚ) → Nat → List Nat
  | [], _ => []
  | (_, score) :: rest, c =>
    if th < score then (c + 1) :: streakLens th rest (c + 1)
    else 0 :: streakLens th rest 0

/-- Modelled from the spec wording of the sustained signal: the event dates
are exactly the dates at which the score has exceeded the threshold for
exactly `n` consecutive observations since the last breach - the first
qualifying date of each unbroken streak. -/
def sustainedSpecEvents (history : List (Nat × ℚ)) (th : ℚ) (n : Nat) :
    List Nat :=
  ((history.zip (streakLens th history 0)).filter (fun p => p.2 = n)).map
    (fun p => p.1.1)

/-- One quarterly income row (src/src/data/metrics_calculator.py), with the
fields feeding the QoQ and CAGR passes; a missing `date` makes Pass 1 skip
the row. -/
structure IncRow where
  date : Option Nat
  revenue : Option ℚ
  gross_profit : Option ℚ
  operating_income : Option ℚ
  net_income : Option ℚ
  ebitda : Option ℚ
  eps_diluted : Option ℚ
  income_tax_expense : Option ℚ
  income_before_tax : Option ℚ
deriving DecidableEq

/-- One balance-sheet row, restricted to the fields feeding ROE and ROIC. -/
structure BsRow where
  date : Nat
  total_stockholders_equity : Option ℚ
  total_debt : Option ℚ
  cash_and_cash_equivalents : Option ℚ
deriving DecidableEq

/-- Embedding of `_safe_div` (metrics_calculator.py lines 21-32). -/
def safeDiv (a b : Option ℚ) : Option ℚ :=
  match a, b with
  | some x, some y => if y = 0 then none else some (x / y)
  | _, _ => none

/-- Embedding of `_avg` (metrics_calculator.py lines 35-42). -/
def optAvg (a b : Option ℚ) : Option ℚ :=
  match a, b with
  | some x, some y => some ((x + y) / 2)
  | _, _ => none

/-- Embedding of `_sum_last_n` (metrics_calculator.py lines 45-55). -/
def sumLastN (rows : List IncRow) (f : IncRow → Option ℚ) (n : Nat) :
    Option ℚ :=
  if rows.length < n then none
  else ((rows.take n).mapM f).map (fun l => l.sum)

/-- Embedding of `_yoy_growth` (metrics_calculator.py lines 76-87), also
used for the QoQ growth fields. -/
def yoyGrowth (c p : Option ℚ) : Option ℚ :=
  match c, p with
  | some c, some p => if p = 0 then none else some ((c - p) / |p|)
  | _, _ => none

/-- Embedding of `_cagr` (metrics_calculator.py lines 90-104) with
`periods = 3`.  The Python value is `(c / b) ** (1 / 3) - 1`, an irrational
real; the embedding stores the ratio `c / b`, of which that value is the
strictly monotone image, preserving presence and order exactly. -/
def cagrRatio (c b : Option ℚ) : Option ℚ :=
  match c, b with
  | some c, some b => if b ≤ 0 ∨ c < 0 then none else some (c / b)
  | _, _ => none

/-- Embedding of `_delta` (metrics_calculator.py lines 107-118). -/
def optDelta (c p : Option ℚ) : Option ℚ :=
  match c, p with
  | some c, some p => some (c - p)
  | _, _ => none

/-- The Pass-1 computed fields that feed the QoQ and CAGR passes. -/
structure MetricPass1 where
  gross_margin : Option ℚ
  operating_margin : Option ℚ
  net_margin : Option ℚ
  ebitda_margin : Option ℚ
  roe : Option ℚ
  roic : Option ℚ
deriving DecidableEq

/-- Python dict lookup bs_by_date.get(d) with an empty-dict default, where
bs_by_date is keyed by row date: the last row with the given date wins. -/
def bsByDate (bs : List BsRow) (d : Nat) : Option BsRow :=
  bs.reverse.find? (fun r => r.date = d)

/-- Field access through an optional balance-sheet row (`bs_row.get(k)` on
a possibly-empty dict). -/
def bsField (r : Option BsRow) (f : BsRow → Option ℚ) : Option ℚ :=
  match r with
  | some row => f row
  | none => none

/-- Pass 1 of `compute_metrics` (metrics_calculator.py lines 143-267) for
one income row, given the suffix `income[idx:]` of the raw income list:
margins, TTM-based ROE with the annualized single-quarter fallback, and
ROIC from NOPAT over invested capital. -/
def pass1Row (bs : List BsRow) (inc : IncRow) (suffix : List IncRow)
    (d : Nat) : MetricPass1 :=
  let bs_row := bsByDate bs d
  let current_equity := bsField bs_row (fun r => r.total_stockholders_equity)
  let ttm_ni := sumLastN suffix (fun r => r.net_income) 4
  let prior_bs_date := (suffix.get? 4).bind (fun r => r.date)
  let prior_bs := prior_bs_date.bind (fun pd => bsByDate bs pd)
  let roe :=
    match ttm_ni with
    | some _ =>
      safeDiv ttm_ni (optAvg current_equity
        (bsField prior_bs (fun r => r.total_stockholders_equity)))
    | none =>
      match inc.net_income with
      | some ni => safeDiv (some (ni * 4)) current_equity
      | none => none
  let eff_tax :=
    match inc.income_before_tax with
    | some pt => if pt = 0 then none else safeDiv inc.income_tax_expense (some pt)
    | none => none
  let roic :=
    match inc.operating_income, eff_tax with
    | some oi, some et =>
      let nopat := oi * (1 - et)
      let invested := (bsField bs_row (fun r => r.total_stockholders_equity)).getD 0 +
        (bsField bs_row (fun r => r.total_debt)).getD 0 -
        (bsField bs_row (fun r => r.cash_and_cash_equivalents)).getD 0
      if invested = 0 then none else some (nopat / invested)
    | _, _ => none
  { gross_margin := safeDiv inc.gross_profit inc.revenue
    operating_margin := safeDiv inc.operating_income inc.revenue
    net_margin := safeDiv inc.net_income inc.revenue
    ebitda_margin := safeDiv inc.ebitda inc.revenue
    roe := roe
    roic := roic }

/-- Pass 1 over the raw income list (newest first): rows with a missing
date are skipped; each emitted row is paired with its source income row
(the `income_used` alignment of metrics_calculator.py line 272). -/
def pass1 (bs : List BsRow) : List IncRow → List (MetricPass1 × IncRow)
  | [] => []
  | inc :: rest =>
    match inc.date with
    | none => pass1 bs rest
    | some d => (pass1Row bs inc (inc :: rest) d, inc) :: pass1 bs rest

/-- One output row of the derived-metric pipeline, restricted to the
Pass-1 carriers and the QoQ and trailing-4Q fields. -/
structure MetricRow where
  gross_margin : Option ℚ
  operating_margin : Option ℚ
  net_margin : Option ℚ
  ebitda_margin : Option ℚ
  roe : Option ℚ
  roic : Option ℚ
  revenue_growth_qoq : Option ℚ
  net_income_growth_qoq : Option ℚ
  eps_growth_qoq : Option ℚ
  operating_income_growth_qoq : Option ℚ
  gross_margin_delta_qoq : Option ℚ
  operating_margin_delta_qoq : Option ℚ
  net_margin_delta_qoq : Option ℚ
  ebitda_margin_delta_qoq : Option ℚ
  roe_delta_qoq : Option ℚ
  roic_delta_qoq : Option ℚ
  revenue_cagr_4q : Option ℚ
  gross_profit_cagr_4q : Option ℚ
  operating_income_cagr_4q : Option ℚ
  ebitda_cagr_4q : Option ℚ
  net_income_cagr_4q : Option ℚ
  eps_cagr_4q : Option ℚ
  gross_margin_change_4q : Option ℚ
  operating_margin_change_4q : Option ℚ
  net_margin_change_4q : Option ℚ
  ebitda_margin_change_4q : Option ℚ
deriving DecidableEq

/-- Passes 2 and 3 of `compute_metrics` (metrics_calculator.py lines
269-335) for the row at index i, given `results[i+1]` (the next-older row,
for QoQ) and `results[i+3]` (the trailing-4Q base row, for CAGR). -/
def buildRow (cur : MetricPass1 × IncRow)
    (p1 p3 : Option (MetricPass1 × IncRow)) : MetricRow :=
  { gross_margin := cur.1.gross_margin
    operating_margin := cur.1.operating_margin
    net_margin := cur.1.net_margin
    ebitda_margin := cur.1.ebitda_margin
    roe := cur.1.roe
    roic := cur.1.roic
    revenue_growth_qoq :=
      match p1 with
      | some prev => yoyGrowth cur.2.revenue prev.2.revenue
      | none => none
    net_income_growth_qoq :=
      match p1 with
      | some prev => yoyGrowth cur.2.net_income prev.2.net_income
      | none => none
    eps_growth_qoq :=
      match p1 with
      | some prev => yoyGrowth cur.2.eps_diluted prev.2.eps_diluted
      | none => none
    operating_income_growth_qoq :=
      match p1 with
      | some prev => yoyGrowth cur.2.operating_income prev.2.operating_income
      | none => none
    gross_margin_delta_qoq :=
      match p1 with
      | some prev => optDelta cur.1.gross_margin prev.1.gross_margin
      | none => none
    operating_margin_delta_qoq :=
      match p1 with
      | some prev => optDelta cur.1.operating_margin prev.1.operating_margin
      | none => none
    net_margin_delta_qoq :=
      match p1 with
      | some prev => optDelta cur.1.net_margin prev.1.net_margin
      | none => none
    ebitda_margin_delta_qoq :=
      match p1 with
      | some prev => optDelta cur.1.ebitda_margin prev.1.ebitda_margin
      | none => none
    roe_delta_qoq :=
      match p1 with
      | some prev => optDelta cur.1.roe prev.1.roe
      | none => none
    roic_delta_qoq :=
      match p1 with
      | some prev => optDelta cur.1.roic prev.1.roic
      | none => none
    revenue_cagr_4q :=
      match p3 with
      | some base => cagrRatio cur.2.revenue base.2.revenue
      | none => none
    gross_profit_cagr_4q :=
      match p3 with
      | some base => cagrRatio cur.2.gross_profit base.2.gross_profit
      | none => none
    operating_income_cagr_4q :=
      match p3 with
      | some base => cagrRatio cur.2.operating_income base.2.operating_income
      | none => none
    ebitda_cagr_4q :=
      match p3 with
      | some base => cagrRatio cur.2.ebitda base.2.ebitda
      | none => none
    net_income_cagr_4q :=
      match p3 with
      | some base => cagrRatio cur.2.net_income base.2.net_income
      | none => none
    eps_cagr_4q :=
      match p3 with
      | some base => cagrRatio cur.2.eps_diluted base.2.eps_diluted
      | none => none
    gross_margin_change_4q :=
      match p3 with
      | some base => optDelta cur.1.gross_margin base.1.gross_margin
      | none => none
    operating_margin_change_4q :=
      match p3 with
      | some base => optDelta cur.1.operating_margin base.1.operating_margin
      | none => none
    net_margin_change_4q :=
      match p3 with
      | some base => optDelta cur.1.net_margin base.1.net_margin
      | none => none
    ebitda_margin_change_4q :=
      match p3 with
      | some base => optDelta cur.1.ebitda_margin base.1.ebitda_margin
      | none => none }

/-- Walk the Pass-1 result list newest-first: at each position the
next-older row is the head of the tail and the CAGR base row sits two
further down (`results[i+1]` and `results[i+3]`). -/
def finalizeRows : List (MetricPass1 × IncRow) → List MetricRow
  | [] => []
  | cur :: rest => buildRow cur rest.head? (rest.get? 2) :: finalizeRows rest

/-- Embedding of `compute_metrics` (src/src/data/metrics_calculator.py
lines 121-341) restricted to the fields the QoQ/CAGR policy talks about:
Pass 1 per-row metrics, then the QoQ and trailing-4Q passes. -/
def compute_metrics (income : List IncRow) (bs : List BsRow) :
    List MetricRow :=
  finalizeRows (pass1 bs income)

/-- C1: for every date d and every symbol series in the mapping returned by
`slice_to_date(d)`, every row of that series has date ≤ d. -/
theorem slice_to_date_no_lookahead (cache : List (Ticker × List PriceRow))
    (d : Nat) (sym : Ticker) (series : List PriceRow)
    (hmem : (sym, series) ∈ sliceToDate cache d) :
    ∀ r ∈ series, r.date ≤ d := by
  intro r hr
  rcases List.mem_filterMap.mp hmem with ⟨p, _, hpeq⟩
  dsimp only at hpeq
  split at hpeq
  · rw [Option.some_inj, Prod.mk.injEq] at hpeq
    rw [← hpeq.2] at hr
    exact of_decide_eq_true (List.mem_filter.mp hr).2
  · exact absurd hpeq (Option.noConfusion)

/-- Closed instantiation of the no-look-ahead theorem: a cache with one
symbol holding 70 flat bars on dates 0..69, sliced at date 100. -/
theorem slice_to_date_no_lookahead_witness :
    (0, (List.range 70).map (fun i => PriceRow.mk i 1)) ∈
      sliceToDate [(0, (List.range 70).map (fun i => PriceRow.mk i 1))] 100 ∧
    PriceRow.mk 3 1 ∈ (List.range 70).map (fun i => PriceRow.mk i 1) ∧
    (PriceRow.mk 3 1).date ≤ 100 :=
  ⟨by decide, by decide,
    slice_to_date_no_lookahead [(0, (List.range 70).map (fun i => PriceRow.mk i 1))]
      100 0 ((List.range 70).map (fun i => PriceRow.mk i 1)) (by decide)
      (PriceRow.mk 3 1) (by decide)⟩

/-- C2 counterexample: with cash 100 and cost rate 1/2, a buy of notional
150 at price 1 has notional > cash, yet it does not degrade to spending the
remaining cash: the recorded trade spends the full notional 150 and cash
ends at -50, violating the claimed cash ≥ -ε invariant. -/
theorem buy_overdraw_counterexample :
    (100 : ℚ) < 150 ∧
    ((PortfolioState.mk 100 (1/2) [] []).buy 0 150 1 7).1.cash = -50 ∧
    ((PortfolioState.mk 100 (1/2) [] []).buy 0 150 1 7).1.trades =
      [Trade.mk 7 0 Side.BUY 75 1 75 150] ∧
    ¬(0 : ℚ) ≤ -50 := by
  with_unfolding_all decide

/-- C2 (amended): with price > 0, notional > 0 and a non-negative cost
rate, a buy degrades exactly when notional − cost exceeds cash (not when
notional exceeds cash).  Non-degraded case: cost = notional × cost_rate,
shares = (notional − cost) / price, cash decreases by exactly notional and
ends no lower than −cost (so it can dip below zero by up to the trade
cost when cash < notional ≤ cash + cost).  Degraded case with positive
cash: the buy spends exactly the remaining cash, cost inclusive, leaving
cash at 0.  Degraded case with cash ≤ 0: no-op returning 0 shares. -/
theorem buy_semantics (p : PortfolioState) (sym : Ticker)
    (notional price : ℚ) (d : Nat) (hp : 0 < price) (hn : 0 < notional)
    (hr : 0 ≤ p.costRate) :
    (notional - notional * p.costRate ≤ p.cash →
      (p.buy sym notional price d).1.cash = p.cash - notional ∧
      (p.buy sym notional price d).1.trades = p.trades ++
        [Trade.mk d sym Side.BUY ((notional - notional * p.costRate) / price)
          price (notional * p.costRate) notional] ∧
      (p.buy sym notional price d).2 = (notional - notional * p.costRate) / price ∧
      -(notional * p.costRate) ≤ (p.buy sym notional price d).1.cash) ∧
    (p.cash < notional - notional * p.costRate → 0 < p.cash →
      (p.buy sym notional price d).1.cash = 0 ∧
      (p.buy sym notional price d).1.trades = p.trades ++
        [Trade.mk d sym Side.BUY (p.cash / (1 + p.costRate) / price) price
          (p.cash * p.costRate / (1 + p.costRate)) p.cash]) ∧
    (p.cash < notional - notional * p.costRate → p.cash ≤ 0 →
      (p.buy sym notional price d) = (p, 0)) := by
  have hguard : ¬(price ≤ 0 ∨ notional ≤ 0) := by
    push_neg
    exact ⟨hp, hn⟩
  have hr1 : (0 : ℚ) < 1 + p.costRate := by linarith
  have ha : p.cash - p.cash * p.costRate / (1 + p.costRate) =
      p.cash / (1 + p.costRate) := by
    field_simp
    ring
  unfold PortfolioState.buy
  rw [if_neg hguard]
  dsimp only
  rw [ha]
  refine ⟨?_, ?_, ?_⟩
  · intro h1
    rw [if_neg (not_lt.mpr h1)]
    dsimp only
    refine ⟨by ring, rfl, rfl, ?_⟩
    have : p.cash - (notional - notional * p.costRate + notional * p.costRate) =
        p.cash - notional := by ring
    rw [this]
    linarith
  · intro h2 hpos
    rw [if_pos h2]
    have hag : 0 < p.cash / (1 + p.costRate) := div_pos hpos hr1
    rw [if_neg (not_le.mpr hag)]
    dsimp only
    have hc : p.cash - p.cash / (1 + p.costRate) =
        p.cash * p.costRate / (1 + p.costRate) := by
      field_simp
      ring
    refine ⟨by ring, ?_⟩
    rw [hc]
  · intro h2 hneg
    rw [if_pos h2]
    have hag : p.cash / (1 + p.costRate) ≤ 0 :=
      div_nonpos_iff.mpr (Or.inr ⟨hneg, hr1.le⟩)
    rw [if_pos hag]

/-- Closed instantiation of the amended buy semantics: cash 1000, cost
rate 1/100, a non-degraded buy of notional 100 at price 10 leaves cash
at 900. -/
theorem buy_semantics_witness :
    (0 : ℚ) < 10 ∧ (0 : ℚ) < 100 ∧ (0 : ℚ) ≤ 1 / 100 ∧
    ((100 : ℚ) - 100 * (1 / 100) ≤ 1000) ∧
    ((PortfolioState.mk 1000 (1 / 100) [] []).buy 0 100 10 3).1.cash =
      1000 - 100 := by
  have h := buy_semantics (PortfolioState.mk 1000 (1 / 100) [] []) 0 100 10 3
    (by norm_num) (by norm_num) (by norm_num)
  exact ⟨by norm_num, by norm_num, by norm_num, by norm_num,
    (h.1 (by norm_num)).1⟩

theorem mem_pySorted {l : List Ticker} {a : Ticker} :
    a ∈ pySorted l ↔ a ∈ l :=
  List.mem_insertionSort _

theorem mem_of_mem_pickBuys {cands rem ts : List Ticker} {k : Nat}
    {s : Ticker} (h : s ∈ pickBuys cands rem ts k) :
    s ∈ cands ∧ s ∉ rem ∧ s ∉ ts := by
  induction cands generalizing k with
  | nil =>
    cases k <;> simp [pickBuys] at h
  | cons c rest ih =>
    cases k with
    | zero => simp [pickBuys] at h
    | succ k =>
      simp only [pickBuys] at h
      split at h
      · rcases ih h with ⟨h1, h2, h3⟩
        exact ⟨List.mem_cons_of_mem _ h1, h2, h3⟩
      · rename_i hcond
        rcases List.mem_cons.mp h with h4 | h4
        · subst h4
          push_neg at hcond
          exact ⟨List.mem_cons_self _ _, hcond.1, hcond.2⟩
        · rcases ih h4 with ⟨h1, h2, h3⟩
          exact ⟨List.mem_cons_of_mem _ h1, h2, h3⟩

/-- C10: for every ranking and holding set, the action returned by
`Rebalancer.compute` partitions the holdings: `to_sell` and `to_hold` are
disjoint and together cover exactly H, `to_buy` is disjoint from H and
from `to_sell`, and `target_count` counts `to_hold` plus `to_buy`. -/
theorem rebalance_partition (top_n sell_buffer : Nat)
    (rs : List (Ticker × ℚ)) (H : List Ticker) :
    (∀ s, (s ∈ (Rebalancer.compute top_n sell_buffer rs H).to_sell ∨
        s ∈ (Rebalancer.compute top_n sell_buffer rs H).to_hold) ↔ s ∈ H) ∧
    (∀ s, s ∈ (Rebalancer.compute top_n sell_buffer rs H).to_sell →
        s ∉ (Rebalancer.compute top_n sell_buffer rs H).to_hold) ∧
    (∀ s, s ∈ (Rebalancer.compute top_n sell_buffer rs H).to_buy →
        s ∉ H ∧ s ∉ (Rebalancer.compute top_n sell_buffer rs H).to_sell) ∧
    (Rebalancer.compute top_n sell_buffer rs H).target_count =
      (Rebalancer.compute top_n sell_buffer rs H).to_hold.length +
        (Rebalancer.compute top_n sell_buffer rs H).to_buy.length := by
  by_cases hrs : rs.isEmpty
  · rw [Rebalancer.compute, if_pos hrs]
    refine ⟨?_, ?_, ?_, rfl⟩
    · intro s
      simp [mem_pySorted]
    · intro s _
      simp
    · intro s hs
      simp at hs
  · rw [Rebalancer.compute, if_neg hrs]
    dsimp only
    refine ⟨?_, ?_, ?_, rfl⟩
    · intro s
      simp only [mem_pySorted, List.mem_filter, decide_eq_true_eq]
      constructor
      · rintro (⟨hs, _⟩ | ⟨hs, _⟩) <;> exact hs
      · intro hs
        by_cases hsell :
            s ∈ H.filter (fun sym =>
              sym ∉ rankedSymbols rs ∨ sym ∉ safeZone top_n sell_buffer rs)
        · rcases List.mem_filter.mp hsell with ⟨h1, h2⟩
          exact Or.inl ⟨h1, of_decide_eq_true h2⟩
        · right
          exact ⟨hs, by simpa using hsell⟩
    · intro s hsell hhold
      rw [mem_pySorted, List.mem_filter] at hsell hhold
      have := hhold.2
      simp only [decide_eq_true_eq] at this
      exact this (List.mem_filter.mpr hsell)
    · intro s hs
      have hbuy : s ∈ pickBuys ((rankedSymbols rs).take top_n)
          (H.filter (fun sym => sym ∉ H.filter (fun sym =>
            sym ∉ rankedSymbols rs ∨ sym ∉ safeZone top_n sell_buffer rs)))
          (H.filter (fun sym =>
            sym ∉ rankedSymbols rs ∨ sym ∉ safeZone top_n sell_buffer rs))
          ((top_n : ℤ) - (H.filter (fun sym => sym ∉ H.filter (fun sym =>
            sym ∉ rankedSymbols rs ∨ sym ∉ safeZone top_n sell_buffer rs))).length).toNat := by
        revert hs
        split
        · exact fun hs => hs
        · intro hs
          simp at hs
      rcases mem_of_mem_pickBuys hbuy with ⟨_, hrem, hts⟩
      constructor
      · intro hsH
        by_cases hsell :
            s ∈ H.filter (fun sym =>
              sym ∉ rankedSymbols rs ∨ sym ∉ safeZone top_n sell_buffer rs)
        · exact hts hsell
        · exact hrem (List.mem_filter.mpr
            ⟨hsH, by simp only [decide_eq_true_eq]; exact hsell⟩)
      · rw [mem_pySorted]
        exact hts

/-- Closed instantiation of the partition theorem: with top_n = 1,
sell_buffer = 0, ranking [(1, 90), (2, 80)] and holdings [2, 3], symbol 1
is bought and hence is outside H and outside `to_sell`. -/
theorem rebalance_partition_witness :
    (1 ∉ ([2, 3] : List Ticker)) ∧
    1 ∉ (Rebalancer.compute 1 0 [(1, 90), (2, 80)] [2, 3]).to_sell :=
  (rebalance_partition 1 0 [(1, 90), (2, 80)] [2, 3]).2.2.1 1
    (by with_unfolding_all decide)

/-- C7: with a non-empty ranking and a positive sell buffer, a held symbol
inside the safe zone is never sold, and a held symbol absent from the
ranking entirely is always sold. -/
theorem hysteresis_safe_zone (top_n sell_buffer : Nat)
    (rs : List (Ticker × ℚ)) (H : List Ticker) (sym : Ticker)
    (hne : rs ≠ []) (_hb : 0 < sell_buffer) (hH : sym ∈ H) :
    (sym ∈ safeZone top_n sell_buffer rs →
      sym ∉ (Rebalancer.compute top_n sell_buffer rs H).to_sell) ∧
    (sym ∉ rankedSymbols rs →
      sym ∈ (Rebalancer.compute top_n sell_buffer rs H).to_sell) := by
  have hrs : ¬rs.isEmpty := by
    simpa [List.isEmpty_iff] using hne
  rw [Rebalancer.compute, if_neg hrs]
  dsimp only
  constructor
  · intro hsafe hsell
    rw [mem_pySorted, List.mem_filter] at hsell
    have hcond := hsell.2
    simp only [decide_eq_true_eq] at hcond
    rcases hcond with huniv | hzone
    · exact huniv (List.take_subset _ _ hsafe)
    · exact hzone hsafe
  · intro huniv
    rw [mem_pySorted, List.mem_filter]
    refine ⟨hH, ?_⟩
    simp only [decide_eq_true_eq]
    exact Or.inl huniv

/-- Closed instantiation of the hysteresis theorem: ranking
[(1, 90), (2, 80), (3, 70)], holdings [1, 9], top_n = 1, sell_buffer = 1:
held symbol 1 sits in the safe zone and is not sold, while held symbol 9
is absent from the ranking and is sold. -/
theorem hysteresis_safe_zone_witness :
    1 ∉ (Rebalancer.compute 1 1 [(1, 90), (2, 80), (3, 70)] [1, 9]).to_sell ∧
    9 ∈ (Rebalancer.compute 1 1 [(1, 90), (2, 80), (3, 70)] [1, 9]).to_sell :=
  ⟨(hysteresis_safe_zone 1 1 [(1, 90), (2, 80), (3, 70)] [1, 9] 1
      (by simp) (by norm_num) (by simp)).1 (by with_unfolding_all decide),
    (hysteresis_safe_zone 1 1 [(1, 90), (2, 80), (3, 70)] [1, 9] 9
      (by simp) (by norm_num) (by simp)).2 (by with_unfolding_all decide)⟩

theorem dictOf_aux_eq (l acc : List (Ticker × ℚ))
    (h : (acc.map Prod.fst ++ l.map Prod.fst).Nodup) :
    l.foldl (fun d p => dictInsert d p.1 p.2) acc = acc ++ l := by
  induction l generalizing acc with
  | nil => simp
  | cons p rest ih =>
    have hnotin : p.1 ∉ acc.map Prod.fst := by
      rcases List.nodup_append.mp h with ⟨_, _, hdisj⟩
      intro hc
      exact hdisj hc (by simp)
    have hins : dictInsert acc p.1 p.2 = acc ++ [p] := by
      rw [dictInsert, if_neg]
      simp only [List.any_eq_true, decide_eq_true_eq, not_exists]
      intro q hq
      exact hnotin (hq.2 ▸ List.mem_map_of_mem Prod.fst hq.1)
    have h2 : ((acc ++ [p]).map Prod.fst ++ rest.map Prod.fst).Nodup := by
      have : (acc ++ [p]).map Prod.fst ++ rest.map Prod.fst =
          acc.map Prod.fst ++ (p :: rest).map Prod.fst := by
        simp
      rw [this]
      exact h
    calc (p :: rest).foldl (fun d q => dictInsert d q.1 q.2) acc
        = rest.foldl (fun d q => dictInsert d q.1 q.2) (acc ++ [p]) := by
          rw [List.foldl_cons, hins]
      _ = (acc ++ [p]) ++ rest := ih (acc ++ [p]) h2
      _ = acc ++ (p :: rest) := by simp

theorem dictOf_eq_self (l : List (Ticker × ℚ))
    (h : (l.map Prod.fst).Nodup) : dictOf l = l := by
  have := dictOf_aux_eq l [] (by simpa using h)
  simpa [dictOf] using this

theorem sum_map_const_q {α : Type} (l : List α) (c : ℚ) :
    (l.map (fun _ => c)).sum = l.length * c := by
  induction l with
  | nil => simp
  | cons x rest ih =>
    simp [ih]
    ring

theorem length_le_sum_of_one_le (l : List ℚ) (h : ∀ x ∈ l, (1 : ℚ) ≤ x) :
    (l.length : ℚ) ≤ l.sum := by
  induction l with
  | nil => simp
  | cons x rest ih =>
    have h1 := h x (by simp)
    have h2 : (rest.length : ℚ) ≤ rest.sum := ih (fun y hy => h y (by simp [hy]))
    simp only [List.sum_cons, List.length_cons]
    push_cast
    linarith

theorem sum_map_snd_div (l : List (Ticker × ℚ)) (c : ℚ) :
    ((l.map (fun p => (p.1, p.2 / c))).map Prod.snd).sum =
      (l.map Prod.snd).sum / c := by
  induction l with
  | nil => simp
  | cons p rest ih =>
    simp only [List.map_cons, List.sum_cons, ih]
    rw [add_div]

/-- C6: for every action with a non-empty target set `to_hold ∪ to_buy`,
the weights returned by `compute_weights` sum to exactly 1 (hence within
10⁻¹⁰), both under equal weighting and under the rs_rank weighting whose
`max(rank, 1)` raw weights always have a positive total. -/
theorem compute_weights_sum_one (action : RebalanceAction)
    (rs : List (Ticker × ℚ)) (weighting : String)
    (hne : action.to_hold ++ action.to_buy ≠ [])
    (hnd : (action.to_hold ++ action.to_buy).Nodup) :
    ((Rebalancer.computeWeights action rs weighting).map Prod.snd).sum = 1 := by
  unfold Rebalancer.computeWeights
  dsimp only
  rw [if_neg (by simpa [List.isEmpty_iff] using hne)]
  have hlen : (0 : ℚ) < (action.to_hold ++ action.to_buy).length := by
    have : 0 < (action.to_hold ++ action.to_buy).length :=
      List.length_pos.mpr hne
    exact_mod_cast this
  have hkeys : ∀ f : Ticker → ℚ,
      dictOf ((action.to_hold ++ action.to_buy).map (fun sym => (sym, f sym))) =
        (action.to_hold ++ action.to_buy).map (fun sym => (sym, f sym)) := by
    intro f
    apply dictOf_eq_self
    have hcomp : (Prod.fst ∘ fun sym : Ticker => (sym, f sym)) = id := rfl
    rw [List.map_map, hcomp, List.map_id]
    exact hnd
  have hequal : (((action.to_hold ++ action.to_buy).map (fun sym =>
      (sym, 1 / ((action.to_hold ++ action.to_buy).length : ℚ)))).map
        Prod.snd).sum = 1 := by
    rw [List.map_map]
    have : (Prod.snd ∘ fun sym : Ticker =>
        (sym, 1 / ((action.to_hold ++ action.to_buy).length : ℚ))) =
        fun _ => 1 / ((action.to_hold ++ action.to_buy).length : ℚ) := rfl
    rw [this, sum_map_const_q, mul_one_div, div_self (ne_of_gt hlen)]
  by_cases hw : weighting = "equal"
  · rw [if_pos hw, hkeys]
    exact hequal
  · rw [if_neg hw]
    rw [hkeys]
    have hone : ∀ x ∈ (((action.to_hold ++ action.to_buy).map (fun sym =>
        (sym, max ((List.lookup sym (dictOf rs)).getD 0) 1))).map Prod.snd),
        (1 : ℚ) ≤ x := by
      intro x hx
      rcases List.mem_map.mp hx with ⟨q, hq, hqe⟩
      rcases List.mem_map.mp hq with ⟨sym, _, hse⟩
      rw [← hqe, ← hse]
      exact le_max_right _ _
    have htot : (0 : ℚ) <
        ((((action.to_hold ++ action.to_buy).map (fun sym =>
          (sym, max ((List.lookup sym (dictOf rs)).getD 0) 1))).map
            Prod.snd)).sum := by
      have h1 := length_le_sum_of_one_le _ hone
      have h2 : ((((action.to_hold ++ action.to_buy).map (fun sym =>
          (sym, max ((List.lookup sym (dictOf rs)).getD 0) 1))).map
            Prod.snd)).length = (action.to_hold ++ action.to_buy).length := by
        simp
      rw [h2] at h1
      linarith
    rw [if_neg (not_le.mpr htot)]
    rw [sum_map_snd_div]
    exact div_self (ne_of_gt htot)

/-- Closed instantiation of the weight-sum theorem: holding [1], buying
[2], ranking [(1, 90), (2, 80)], rs-weighted weights sum to 1. -/
theorem compute_weights_sum_one_witness :
    ((Rebalancer.computeWeights (RebalanceAction.mk [] [2] [1] 2)
      [(1, 90), (2, 80)] "rs_weighted").map Prod.snd).sum = 1 :=
  compute_weights_sum_one (RebalanceAction.mk [] [2] [1] 2)
    [(1, 90), (2, 80)] "rs_weighted" (by simp) (by simp)

theorem ratFloor_eq_floor (q : ℚ) : ratFloor q = ⌊q⌋ := by
  rw [Rat.floor_def, ratFloor]
  exact Int.fdiv_eq_ediv q.num (by positivity)

theorem ratFloor_nonneg {q : ℚ} (h : 0 ≤ q) : 0 ≤ ratFloor q := by
  rw [ratFloor_eq_floor]
  exact Int.floor_nonneg.mpr h

theorem one_le_avgRank {l : List ℚ} {v : ℚ} (h : v ∈ l) : 1 ≤ avgRank l v := by
  have h1 : 1 ≤ (l.filter (fun x => x = v)).length := by
    have : v ∈ l.filter (fun x => x = v) :=
      List.mem_filter.mpr ⟨h, by simp⟩
    exact List.length_pos.mpr (List.ne_nil_of_mem this)
  have h2 : (0 : ℚ) ≤ ((l.filter (fun x => x < v)).length : ℚ) := by positivity
  have h3 : (1 : ℚ) ≤ ((l.filter (fun x => x = v)).length : ℚ) := by
    exact_mod_cast h1
  rw [avgRank]
  linarith

/-- C5: the rank bucket emitted by Methods B and C.  Every emitted rank
lies in [0, 99]; a singleton universe gets rank 50; and with at least two
symbols each rank equals the floor of average-rank / count x 100, where the
lower clip never binds because the average rank is at least 1. -/
theorem rs_rank_bucket (l : List ℚ) (hne : l ≠ []) :
    (∀ r ∈ rsRankColumn l, 0 ≤ r ∧ r ≤ 99) ∧
    (l.length = 1 → rsRankColumn l = [50]) ∧
    (2 ≤ l.length →
      rsRankColumn l = l.map (fun v =>
        min 99 (ratFloor (avgRank l v / (l.length : ℚ) * 100))) ∧
      ∀ v ∈ l, 0 ≤ ratFloor (avgRank l v / (l.length : ℚ) * 100)) := by
  have hfloor : ∀ v ∈ l, 2 ≤ l.length →
      0 ≤ ratFloor (avgRank l v / (l.length : ℚ) * 100) := by
    intro v hv hlen
    apply ratFloor_nonneg
    have h1 : (1 : ℚ) ≤ avgRank l v := one_le_avgRank hv
    have h2 : (0 : ℚ) < (l.length : ℚ) := by
      have : 0 < l.length := List.length_pos.mpr hne
      exact_mod_cast this
    positivity
  refine ⟨?_, ?_, ?_⟩
  · intro r hr
    rw [rsRankColumn] at hr
    split at hr
    · rcases List.mem_map.mp hr with ⟨v, _, hveq⟩
      rw [← hveq]
      norm_num
    · rcases List.mem_map.mp hr with ⟨v, _, hveq⟩
      rw [← hveq]
      constructor
      · exact le_min (by norm_num) (le_max_left 0 _)
      · exact min_le_left _ _
  · intro hlen
    rcases List.length_eq_one.mp hlen with ⟨x, hx⟩
    rw [rsRankColumn, if_pos (by rw [hlen]), hx]
    rfl
  · intro hlen
    constructor
    · rw [rsRankColumn, if_neg (by omega)]
      apply List.map_congr_left
      intro v hv
      rw [max_eq_right (hfloor v hv hlen)]
    · exact fun v hv => hfloor v hv hlen

/-- Closed instantiation of the rank-bucket theorem on the composite list
[3, 1, 3]: average ranks are 2.5, 1, 2.5, giving buckets [83, 33, 83],
and the bucket 83 produced for the tied top values lies in [0, 99]. -/
theorem rs_rank_bucket_witness :
    rsRankColumn [3, 1, 3] = [83, 33, 83] ∧ (0 ≤ (83 : ℤ) ∧ (83 : ℤ) ≤ 99) :=
  ⟨by with_unfolding_all decide,
    (rs_rank_bucket [3, 1, 3] (by simp)).1 83 (by with_unfolding_all decide)⟩

/-- C4 (amended): for every row of the robustness ranking, the attached
score is the harmonic mean of the candidate metric and the mean neighbor
metric when the candidate has neighbors and both values are positive; it
is 0 when neighbors exist but either value is non-positive; and it equals
the candidate's own metric value only when there are no neighbors. -/
theorem robustness_score_cases (market : String) (table : List SweepRow)
    (top_k : Nat) (p : SweepRow × ℚ)
    (hp : p ∈ ParamOptimizer.rankWithRobustness market table top_k) :
    (neighborVals market p.1 (sortedByMetric table) = [] →
      p.2 = p.1.metric) ∧
    (neighborVals market p.1 (sortedByMetric table) ≠ [] →
      0 < p.1.metric ∧
        0 < (neighborVals market p.1 (sortedByMetric table)).sum /
          ((neighborVals market p.1 (sortedByMetric table)).length : ℚ) →
      p.2 = 2 * p.1.metric *
          ((neighborVals market p.1 (sortedByMetric table)).sum /
            ((neighborVals market p.1 (sortedByMetric table)).length : ℚ)) /
          (p.1.metric +
            (neighborVals market p.1 (sortedByMetric table)).sum /
              ((neighborVals market p.1 (sortedByMetric table)).length : ℚ))) ∧
    (neighborVals market p.1 (sortedByMetric table) ≠ [] →
      ¬(0 < p.1.metric ∧
        0 < (neighborVals market p.1 (sortedByMetric table)).sum /
          ((neighborVals market p.1 (sortedByMetric table)).length : ℚ)) →
      p.2 = 0) := by
  rw [ParamOptimizer.rankWithRobustness] at hp
  rw [List.mem_insertionSort] at hp
  rcases List.mem_map.mp hp with ⟨r, _, hre⟩
  have h1 : p.1 = r := by rw [← hre]
  have h2 : p.2 = robustnessScore r.metric (neighborVals market r (sortedByMetric table)) := by
    rw [← hre]
  subst h1
  refine ⟨?_, ?_, ?_⟩
  · intro hnil
    rw [h2, robustnessScore, if_pos (by simp [hnil])]
  · intro hnn hpos
    rw [h2, robustnessScore,
      if_neg (by simpa [List.isEmpty_iff] using hnn), if_pos hpos]
  · intro hnn hneg
    rw [h2, robustnessScore,
      if_neg (by simpa [List.isEmpty_iff] using hnn), if_neg hneg]

/-- C4 counterexample: in the us_stocks market, the sweep table with rows
(B, 5, W, 0, metric -1) and (B, 10, W, 0, metric -2) gives the first
candidate exactly one neighbor (metric -2); both values are non-positive,
and the code assigns robustness score 0 - not the candidate's own value
-1 that the claim prescribes. -/
theorem robustness_nonpositive_counterexample :
    ParamOptimizer.rankWithRobustness usStocksMarket
      [(⟨"B", 5, "W", 0, -1⟩ : SweepRow), (⟨"B", 10, "W", 0, -2⟩ : SweepRow)]
      10 =
      [((⟨"B", 5, "W", 0, -1⟩ : SweepRow), 0),
        ((⟨"B", 10, "W", 0, -2⟩ : SweepRow), 0)] ∧
    neighborVals usStocksMarket (⟨"B", 5, "W", 0, -1⟩ : SweepRow)
      (sortedByMetric
        [(⟨"B", 5, "W", 0, -1⟩ : SweepRow),
          (⟨"B", 10, "W", 0, -2⟩ : SweepRow)]) = [-2] ∧
    ((0 : ℚ) ≠ -1) := by
  with_unfolding_all decide

/-- Closed instantiation of the robustness-score case analysis: the first
candidate of the counterexample table has a neighbor and a non-positive
metric, so its attached robustness score is 0. -/
theorem robustness_score_cases_witness :
    (((⟨"B", 5, "W", 0, -1⟩ : SweepRow), (0 : ℚ)) : SweepRow × ℚ).2 = 0 :=
  (robustness_score_cases usStocksMarket
      [(⟨"B", 5, "W", 0, -1⟩ : SweepRow), (⟨"B", 10, "W", 0, -2⟩ : SweepRow)]
      10 ((⟨"B", 5, "W", 0, -1⟩ : SweepRow), 0)
      (by with_unfolding_all decide)).2.2
    (by with_unfolding_all decide)
    (by with_unfolding_all decide)

theorem sustainedAux_spec (th : ℚ) (n : Nat) (hn : 1 ≤ n) :
    ∀ (rest : List (Nat × ℚ)) (c : Nat) (b : Bool), (b = true ↔ n ≤ c) →
      sustainedAux th n rest c b =
        ((rest.zip (streakLens th rest c)).filter (fun p => p.2 = n)).map
          (fun p => p.1.1) := by
  intro rest
  induction rest with
  | nil =>
    intro c b _
    simp [sustainedAux, streakLens]
  | cons x rest ih =>
    intro c b hb
    obtain ⟨d, s⟩ := x
    by_cases hs : th < s
    · rw [sustainedAux, if_pos hs, streakLens, if_pos hs]
      simp only [List.zip_cons_cons]
      by_cases hcn : c + 1 = n
      · have hble : b = false := by
          rcases Bool.eq_false_or_eq_true b with hbt | hbf
          · exact absurd (hb.mp hbt) (by omega)
          · exact hbf
        rw [if_pos ⟨by omega, hble⟩, List.filter_cons_of_pos (by simpa using hcn),
          List.map_cons]
        exact congrArg (d :: ·) (ih (c + 1) true (by simp; omega))
      · have hcond : ¬(n ≤ c + 1 ∧ b = false) := by
          rintro ⟨hle, hbf⟩
          rw [hbf] at hb
          simp only [Bool.false_eq_true, false_iff] at hb
          omega
        rw [if_neg hcond, List.filter_cons_of_neg (by simpa using hcn)]
        apply ih
        constructor
        · intro hbt
          have := hb.mp hbt
          omega
        · intro hle
          exact hb.mpr (by omega)
    · rw [sustainedAux, if_neg hs, streakLens, if_neg hs]
      simp only [List.zip_cons_cons]
      rw [List.filter_cons_of_neg (by simp; omega)]
      exact ih 0 false (by simp; omega)

/-- C9: for every score history and sustained signal (threshold, length
N ≥ 1), the detected events are exactly the dates at which the score has
been above the threshold for exactly N consecutive observations since the
last breach - at most one event per unbroken streak, with a breach
resetting the count so a later streak can fire again. -/
theorem sustained_signal_characterization (history : List (Nat × ℚ))
    (th : ℚ) (n : Nat) (hn : 1 ≤ n) :
    detectSustained history th n = sustainedSpecEvents history th n := by
  rw [detectSustained, if_neg (by omega), sustainedSpecEvents]
  exact sustainedAux_spec th n hn history 0 false (by simp; omega)

/-- Closed instantiation of the sustained-signal theorem: threshold 1,
N = 2, scores 5, 5, 0, 5, 5 on dates 1..5: events fire on dates 2 and 5,
one per streak, with the breach at date 3 resetting the counter. -/
theorem sustained_signal_characterization_witness :
    detectSustained [(1, 5), (2, 5), (3, 0), (4, 5), (5, 5)] 1 2 =
      sustainedSpecEvents [(1, 5), (2, 5), (3, 0), (4, 5), (5, 5)] 1 2 ∧
    detectSustained [(1, 5), (2, 5), (3, 0), (4, 5), (5, 5)] 1 2 = [2, 5] :=
  ⟨sustained_signal_characterization [(1, 5), (2, 5), (3, 0), (4, 5), (5, 5)]
      1 2 (by norm_num),
    by with_unfolding_all decide⟩

theorem finalizeRows_length (rows : List (MetricPass1 × IncRow)) :
    (finalizeRows rows).length = rows.length := by
  induction rows with
  | nil => rfl
  | cons cur rest ih => simp [finalizeRows, ih]

theorem finalizeRows_get? (rows : List (MetricPass1 × IncRow)) (i : Nat) :
    (finalizeRows rows).get? i = (rows.get? i).map (fun cur =>
      buildRow cur (rows.get? (i + 1)) (rows.get? (i + 3))) := by
  induction rows generalizing i with
  | nil => simp [finalizeRows]
  | cons cur rest ih =>
    cases i with
    | zero => simp [finalizeRows, List.get?_cons_zero, List.get?_cons_succ,
        List.head?_eq_getElem?]
    | succ i => simpa [finalizeRows, List.get?_cons_succ] using ih i

/-- C8 (amended): in the derived-metric pipeline output (rows newest
first), every QoQ field of the oldest row is absent (on other rows QoQ
fields may still be absent when inputs are missing or the prior value is
zero), and every trailing-4Q CAGR field of a row is absent whenever fewer
than 3 rows follow it in the result. -/
theorem qoq_cagr_absence (income : List IncRow) (bs : List BsRow) :
    (∀ i m, (compute_metrics income bs).get? i = some m →
      i + 1 = (compute_metrics income bs).length →
      m.revenue_growth_qoq = none ∧ m.net_income_growth_qoq = none ∧
      m.eps_growth_qoq = none ∧ m.operating_income_growth_qoq = none ∧
      m.gross_margin_delta_qoq = none ∧ m.operating_margin_delta_qoq = none ∧
      m.net_margin_delta_qoq = none ∧ m.ebitda_margin_delta_qoq = none ∧
      m.roe_delta_qoq = none ∧ m.roic_delta_qoq = none) ∧
    (∀ i m, (compute_metrics income bs).get? i = some m →
      (compute_metrics income bs).length ≤ i + 3 →
      m.revenue_cagr_4q = none ∧ m.gross_profit_cagr_4q = none ∧
      m.operating_income_cagr_4q = none ∧ m.ebitda_cagr_4q = none ∧
      m.net_income_cagr_4q = none ∧ m.eps_cagr_4q = none ∧
      m.gross_margin_change_4q = none ∧ m.operating_margin_change_4q = none ∧
      m.net_margin_change_4q = none ∧ m.ebitda_margin_change_4q = none) := by
  constructor
  · intro i m hm hlast
    rw [compute_metrics, finalizeRows_get?] at hm
    rcases Option.map_eq_some'.mp hm with ⟨cur, hcur, hme⟩
    have hnone : (pass1 bs income).get? (i + 1) = none := by
      rw [List.get?_eq_none]
      rw [compute_metrics, finalizeRows_length] at hlast
      omega
    rw [hnone] at hme
    subst hme
    exact ⟨rfl, rfl, rfl, rfl, rfl, rfl, rfl, rfl, rfl, rfl⟩
  · intro i m hm hlen
    rw [compute_metrics, finalizeRows_get?] at hm
    rcases Option.map_eq_some'.mp hm with ⟨cur, hcur, hme⟩
    have hnone : (pass1 bs income).get? (i + 3) = none := by
      rw [List.get?_eq_none]
      rw [compute_metrics, finalizeRows_length] at hlen
      omega
    rw [hnone] at hme
    subst hme
    exact ⟨rfl, rfl, rfl, rfl, rfl, rfl, rfl, rfl, rfl, rfl⟩

/-- C8 counterexample: four income rows (newest first, dates 4..1) with
revenues 100, 0, 50, 50.  The newest row is not the oldest row of the
result, yet its `revenue_growth_qoq` is absent (prior revenue is 0),
refuting "absent exactly when oldest"; and the newest row has only 3 rows
following it - fewer than 4 - yet its `revenue_cagr_4q` is present
(ratio 100/50), refuting "absent when fewer than 4 rows follow". -/
theorem metrics_qoq_cagr_counterexample :
    (compute_metrics
      [(⟨some 4, some 100, none, none, none, none, none, none, none⟩ : IncRow),
        (⟨some 3, some 0, none, none, none, none, none, none, none⟩ : IncRow),
        (⟨some 2, some 50, none, none, none, none, none, none, none⟩ : IncRow),
        (⟨some 1, some 50, none, none, none, none, none, none, none⟩ : IncRow)]
      []).length = 4 ∧
    (compute_metrics
      [(⟨some 4, some 100, none, none, none, none, none, none, none⟩ : IncRow),
        (⟨some 3, some 0, none, none, none, none, none, none, none⟩ : IncRow),
        (⟨some 2, some 50, none, none, none, none, none, none, none⟩ : IncRow),
        (⟨some 1, some 50, none, none, none, none, none, none, none⟩ : IncRow)]
      []).map (fun m => m.revenue_growth_qoq) =
        [none, some (-1), some 0, none] ∧
    (compute_metrics
      [(⟨some 4, some 100, none, none, none, none, none, none, none⟩ : IncRow),
        (⟨some 3, some 0, none, none, none, none, none, none, none⟩ : IncRow),
        (⟨some 2, some 50, none, none, none, none, none, none, none⟩ : IncRow),
        (⟨some 1, some 50, none, none, none, none, none, none, none⟩ : IncRow)]
      []).map (fun m => m.revenue_cagr_4q) = [some 2, none, none, none] := by
  with_unfolding_all decide

/-- Closed instantiation of the absence theorem: a two-row result whose
oldest row (index 1) has every field absent, in particular its QoQ
fields. -/
theorem qoq_cagr_absence_witness :
    1 + 1 = (compute_metrics
      [(⟨some 2, some 100, none, none, none, none, none, none, none⟩ : IncRow),
        (⟨some 1, some 50, none, none, none, none, none, none, none⟩ : IncRow)]
      []).length ∧
    (compute_metrics
      [(⟨some 2, some 100, none, none, none, none, none, none, none⟩ : IncRow),
        (⟨some 1, some 50, none, none, none, none, none, none, none⟩ : IncRow)]
      []).get? 1 = some
        (⟨none, none, none, none, none, none, none, none, none, none, none,
          none, none, none, none, none, none, none, none, none, none, none,
          none, none, none, none⟩ : MetricRow) ∧
    (⟨none, none, none, none, none, none, none, none, none, none, none,
      none, none, none, none, none, none, none, none, none, none, none,
      none, none, none, none⟩ : MetricRow).revenue_growth_qoq = none :=
  ⟨by with_unfolding_all decide, by with_unfolding_all decide,
    ((qoq_cagr_absence
        [(⟨some 2, some 100, none, none, none, none, none, none, none⟩ : IncRow),
          (⟨some 1, some 50, none, none, none, none, none, none, none⟩ : IncRow)]
        []).1 1
      (⟨none, none, none, none, none, none, none, none, none, none, none,
        none, none, none, none, none, none, none, none, none, none, none,
        none, none, none, none⟩ : MetricRow)
      (by with_unfolding_all decide) (by with_unfolding_all decide)).1⟩

theorem buy_trades_append (p : PortfolioState) (sym : Ticker)
    (notional price : ℚ) (d : Nat) :
    ∃ l, (p.buy sym notional price d).1.trades = p.trades ++ l ∧
      ∀ t ∈ l, t.side = Side.BUY ∧ t.symbol = sym := by
  unfold PortfolioState.buy
  split
  · exact ⟨[], by simp⟩
  · dsimp only
    split
    · split
      · exact ⟨[], by simp⟩
      · refine ⟨_, rfl, ?_⟩
        intro t ht
        rw [List.mem_singleton] at ht
        subst ht
        exact ⟨rfl, rfl⟩
    · refine ⟨_, rfl, ?_⟩
      intro t ht
      rw [List.mem_singleton] at ht
      subst ht
      exact ⟨rfl, rfl⟩

theorem sell_trades_append (p : PortfolioState) (sym : Ticker)
    (shares price : ℚ) (d : Nat) :
    ∃ l, (p.sell sym shares price d).1.trades = p.trades ++ l ∧
      ∀ t ∈ l, t.side = Side.SELL ∧ t.symbol = sym := by
  unfold PortfolioState.sell
  split
  · exact ⟨[], by simp⟩
  · dsimp only
    split
    · exact ⟨[], by simp⟩
    · refine ⟨_, rfl, ?_⟩
      intro t ht
      rw [List.mem_singleton] at ht
      subst ht
      exact ⟨rfl, rfl⟩

theorem sellAll_trades_append (p : PortfolioState) (sym : Ticker)
    (price : ℚ) (d : Nat) :
    ∃ l, (p.sellAll sym price d).1.trades = p.trades ++ l ∧
      ∀ t ∈ l, t.side = Side.SELL ∧ t.symbol = sym := by
  unfold PortfolioState.sellAll
  dsimp only
  split
  · exact ⟨[], by simp⟩
  · exact sell_trades_append p sym _ price d

theorem sellStep_trades_append (prices : List (Ticker × ℚ)) (d : Nat)
    (st : PortfolioState × ℚ) (sym : Ticker) :
    ∃ l, (sellStep prices d st sym).1.trades = st.1.trades ++ l ∧
      ∀ t ∈ l, t.side = Side.SELL ∧ t.symbol = sym := by
  rw [sellStep]
  cases List.lookup sym prices with
  | none => exact ⟨[], by simp⟩
  | some price =>
    dsimp only
    split
    · split
      · exact sellAll_trades_append st.1 sym price d
      · exact ⟨[], by simp⟩
    · exact ⟨[], by simp⟩

theorem buyStep_trades_append (prices weights : List (Ticker × ℚ)) (nav : ℚ)
    (d : Nat) (st : PortfolioState × ℚ) (sym : Ticker) :
    ∃ l, (buyStep prices weights nav d st sym).1.trades = st.1.trades ++ l ∧
      ∀ t ∈ l, t.side = Side.BUY ∧ t.symbol = sym := by
  rw [buyStep]
  cases List.lookup sym prices with
  | none => exact ⟨[], by simp⟩
  | some price =>
    dsimp only
    split
    · split
      · exact buy_trades_append st.1 sym _ price d
      · exact ⟨[], by simp⟩
    · exact ⟨[], by simp⟩

theorem foldl_sellStep_trades (prices : List (Ticker × ℚ)) (d : Nat) :
    ∀ (syms : List Ticker) (st : PortfolioState × ℚ),
      ∃ l, (syms.foldl (sellStep prices d) st).1.trades = st.1.trades ++ l ∧
        ∀ t ∈ l, t.side = Side.SELL ∧ t.symbol ∈ syms := by
  intro syms
  induction syms with
  | nil => exact fun st => ⟨[], by simp⟩
  | cons s rest ih =>
    intro st
    rcases sellStep_trades_append prices d st s with ⟨l1, hl1, hm1⟩
    rcases ih (sellStep prices d st s) with ⟨l2, hl2, hm2⟩
    refine ⟨l1 ++ l2, ?_, ?_⟩
    · rw [List.foldl_cons, hl2, hl1, List.append_assoc]
    · intro t ht
      rcases List.mem_append.mp ht with h | h
      · exact ⟨(hm1 t h).1, by simp [(hm1 t h).2]⟩
      · exact ⟨(hm2 t h).1, List.mem_cons_of_mem _ (hm2 t h).2⟩

theorem foldl_buyStep_trades (prices weights : List (Ticker × ℚ)) (nav : ℚ)
    (d : Nat) :
    ∀ (syms : List Ticker) (st : PortfolioState × ℚ),
      ∃ l, (syms.foldl (buyStep prices weights nav d) st).1.trades =
          st.1.trades ++ l ∧
        ∀ t ∈ l, t.side = Side.BUY ∧ t.symbol ∈ syms := by
  intro syms
  induction syms with
  | nil => exact fun st => ⟨[], by simp⟩
  | cons s rest ih =>
    intro st
    rcases buyStep_trades_append prices weights nav d st s with ⟨l1, hl1, hm1⟩
    rcases ih (buyStep prices weights nav d st s) with ⟨l2, hl2, hm2⟩
    refine ⟨l1 ++ l2, ?_, ?_⟩
    · rw [List.foldl_cons, hl2, hl1, List.append_assoc]
    · intro t ht
      rcases List.mem_append.mp ht with h | h
      · exact ⟨(hm1 t h).1, by simp [(hm1 t h).2]⟩
      · exact ⟨(hm2 t h).1, List.mem_cons_of_mem _ (hm2 t h).2⟩

theorem to_hold_not_mem_to_sell {top_n sell_buffer : Nat}
    {rs : List (Ticker × ℚ)} {H : List Ticker} {s : Ticker}
    (hs : s ∈ (Rebalancer.compute top_n sell_buffer rs H).to_hold) :
    s ∉ (Rebalancer.compute top_n sell_buffer rs H).to_sell := by
  rw [Rebalancer.compute] at hs ⊢
  by_cases hrs : rs.isEmpty
  · rw [if_pos hrs] at hs
    simp at hs
  · rw [if_neg hrs] at hs ⊢
    dsimp only at hs ⊢
    rw [mem_pySorted] at hs
    rw [mem_pySorted]
    have h2 := (List.mem_filter.mp hs).2
    simp only [decide_eq_true_eq] at h2
    exact h2

theorem to_hold_not_mem_to_buy {top_n sell_buffer : Nat}
    {rs : List (Ticker × ℚ)} {H : List Ticker} {s : Ticker}
    (hs : s ∈ (Rebalancer.compute top_n sell_buffer rs H).to_hold) :
    s ∉ (Rebalancer.compute top_n sell_buffer rs H).to_buy := by
  rw [Rebalancer.compute] at hs ⊢
  by_cases hrs : rs.isEmpty
  · rw [if_pos hrs] at hs
    simp at hs
  · rw [if_neg hrs] at hs ⊢
    dsimp only at hs ⊢
    rw [mem_pySorted] at hs
    intro hb
    have hbuy : s ∈ pickBuys ((rankedSymbols rs).take top_n)
        (H.filter (fun sym => sym ∉ H.filter (fun sym =>
          sym ∉ rankedSymbols rs ∨ sym ∉ safeZone top_n sell_buffer rs)))
        (H.filter (fun sym =>
          sym ∉ rankedSymbols rs ∨ sym ∉ safeZone top_n sell_buffer rs))
        ((top_n : ℤ) - (H.filter (fun sym => sym ∉ H.filter (fun sym =>
          sym ∉ rankedSymbols rs ∨ sym ∉ safeZone top_n sell_buffer rs))).length).toNat := by
      revert hb
      split
      · exact fun hb => hb
      · intro hb
        simp at hb
    exact (mem_of_mem_pickBuys hbuy).2.1 hs

/-- C3 (amended): a rebalance issues trades only for `to_sell` (sells) and
`to_buy` (buys); kept symbols (`to_hold`) never receive a trade - in
particular the engine never tops up a kept symbol whose target notional
exceeds its current market value, and never sells to reduce an overweight
kept position. -/
theorem rebalance_buys_only_to_buy (top_n sell_buffer : Nat)
    (weighting : String) (rs prices : List (Ticker × ℚ)) (date : Nat)
    (port : PortfolioState) (turnover : ℚ) :
    (∀ t ∈ (BacktestEngine.rebalance top_n sell_buffer weighting rs prices
        date port turnover).1.trades.drop port.trades.length,
      (t.side = Side.SELL ∧ t.symbol ∈ (Rebalancer.compute top_n sell_buffer
        rs (port.holdings.map Prod.fst)).to_sell) ∨
      (t.side = Side.BUY ∧ t.symbol ∈ (Rebalancer.compute top_n sell_buffer
        rs (port.holdings.map Prod.fst)).to_buy)) ∧
    (∀ sym ∈ (Rebalancer.compute top_n sell_buffer rs
        (port.holdings.map Prod.fst)).to_hold,
      ∀ t ∈ (BacktestEngine.rebalance top_n sell_buffer weighting rs prices
        date port turnover).1.trades.drop port.trades.length,
      t.symbol ≠ sym) := by
  rw [BacktestEngine.rebalance]
  by_cases hrs : rs.isEmpty
  · rw [if_pos hrs]
    dsimp only
    rw [List.drop_length]
    constructor
    · intro t ht
      simp at ht
    · intro sym _ t ht
      simp at ht
  · rw [if_neg hrs]
    dsimp only
    rcases foldl_sellStep_trades prices date
        (Rebalancer.compute top_n sell_buffer rs
          (port.holdings.map Prod.fst)).to_sell (port, turnover) with
      ⟨l1, hl1, hm1⟩
    rcases foldl_buyStep_trades prices
        (Rebalancer.computeWeights (Rebalancer.compute top_n sell_buffer rs
          (port.holdings.map Prod.fst)) rs weighting)
        ((((Rebalancer.compute top_n sell_buffer rs
          (port.holdings.map Prod.fst)).to_sell.foldl (sellStep prices date)
            (port, turnover)).1).computeNav prices) date
        (Rebalancer.compute top_n sell_buffer rs
          (port.holdings.map Prod.fst)).to_buy
        ((Rebalancer.compute top_n sell_buffer rs
          (port.holdings.map Prod.fst)).to_sell.foldl (sellStep prices date)
            (port, turnover)) with ⟨l2, hl2, hm2⟩
    rw [hl2, hl1, List.append_assoc, List.drop_left]
    constructor
    · intro t ht
      rcases List.mem_append.mp ht with h | h
      · exact Or.inl (hm1 t h)
      · exact Or.inr (hm2 t h)
    · intro sym hsym t ht
      intro he
      rcases List.mem_append.mp ht with h | h
      · exact to_hold_not_mem_to_sell hsym (he ▸ (hm1 t h).2)
      · exact to_hold_not_mem_to_buy hsym (he ▸ (hm2 t h).2)

/-- C3 counterexample: top_n = 2, sell_buffer = 1, equal weighting,
ranking [(1, 90), (2, 80)], prices 100 for both, portfolio with cash 100
and half a share of symbol 1, zero costs.  Symbol 1 is kept, its target
notional is NAV x weight = 150 x 1/2 = 75, its current market value is 50,
yet the rebalance issues only the single buy for symbol 2 and no trade at
all for the kept symbol 1. -/
theorem rebalance_kept_not_topped_up :
    (Rebalancer.compute 2 1 [(1, 90), (2, 80)]
      ((PortfolioState.mk 100 0 [(1, 1/2)] []).holdings.map Prod.fst)).to_hold
      = [1] ∧
    (PortfolioState.mk 100 0 [(1, 1/2)] []).computeNav
        [(1, 100), (2, 100)] *
      (List.lookup 1 (Rebalancer.computeWeights
        (Rebalancer.compute 2 1 [(1, 90), (2, 80)]
          ((PortfolioState.mk 100 0 [(1, 1/2)] []).holdings.map Prod.fst))
        [(1, 90), (2, 80)] "equal")).getD 0 = 75 ∧
    getShares (PortfolioState.mk 100 0 [(1, 1/2)] []).holdings 1 * 100 = 50 ∧
    ((50 : ℚ) < 75) ∧
    (BacktestEngine.rebalance 2 1 "equal" [(1, 90), (2, 80)]
      [(1, 100), (2, 100)] 0 (PortfolioState.mk 100 0 [(1, 1/2)] [])
      0).1.trades = [Trade.mk 0 2 Side.BUY (3/4) 100 0 75] := by
  with_unfolding_all decide

/-- Closed instantiation of the amended rebalance theorem on the
counterexample data: the kept symbol 1 receives no trade - the single
issued trade is the buy of symbol 2. -/
theorem rebalance_buys_only_to_buy_witness :
    1 ∈ (Rebalancer.compute 2 1 [(1, 90), (2, 80)]
      ((PortfolioState.mk 100 0 [(1, 1/2)] []).holdings.map Prod.fst)).to_hold ∧
    Trade.mk 0 2 Side.BUY (3/4) 100 0 75 ∈
      (BacktestEngine.rebalance 2 1 "equal" [(1, 90), (2, 80)]
        [(1, 100), (2, 100)] 0 (PortfolioState.mk 100 0 [(1, 1/2)] [])
        0).1.trades.drop
          (PortfolioState.mk 100 0 [(1, 1/2)] []).trades.length ∧
    (Trade.mk 0 2 Side.BUY (3/4) 100 0 75).symbol ≠ 1 :=
  ⟨by with_unfolding_all decide, by with_unfolding_all decide,
    (rebalance_buys_only_to_buy 2 1 "equal" [(1, 90), (2, 80)]
        [(1, 100), (2, 100)] 0 (PortfolioState.mk 100 0 [(1, 1/2)] []) 0).2
      1 (by with_unfolding_all decide)
      (Trade.mk 0 2 Side.BUY (3/4) 100 0 75)
      (by with_unfolding_all decide)⟩
